import Mathlib

/-!
# Verification of the currency-conversion and import-messaging core

Shallow embedding of the exchange-rate lookup engine
(`src/lib/currency.ts`: `buildExchangeRateMap`, `findNearestExchangeRate`,
`convertCurrency`) and the import outcome composer
(`src/features/transactions/hooks/useImportMessageHandler.ts`:
`handleImportSuccess`, plus
`src/features/transactions/utils/messageBuilder.ts`:
`buildExchangeRateAvailabilityText`, `buildImportSuccessMessage`).

Modelling conventions:
* JavaScript strings are `String`; the JS `<` / sort comparison on strings is
  lexicographic by code unit, embedded as the linear order on `String.data`
  (`strLt` / `strLe` below), which agrees with it on the ASCII date strings
  and currency codes in scope.
* A JS `Map` is an association list `List (String × α)`; `Map.get` is
  `mapGet` (first matching key) and `Map.set` is `mapSet` (overwrite in
  place, else append), matching JS insertion-order semantics.
* JS numbers are embedded as `ℚ` (the spec restricts rates to positive
  reals and amounts to ordinary finite numbers).
* `new Date(s).getTime()` for a well-formed `YYYY-MM-DD` string is UTC
  midnight in epoch milliseconds, embedded by `dateMillis` via the standard
  civil-calendar day count; a malformed string (NaN in JS, outside the
  documented input domain) is mapped to `0`.
* Logging (`console.warn` / `console.info`) has no effect on return values
  and is dropped.
-/

/-- An exchange-rate record as consumed by the lookup engine
(`ExchangeRateResponse` in `src/types/currency`): calendar date, the two
currency codes and the rate (units of target per 1 unit of base). -/
structure ExchangeRateResponse where
  date : String
  baseCurrency : String
  targetCurrency : String
  rate : ℚ
  deriving DecidableEq, Repr

/-- The two transaction fields the import composer reads. -/
structure Transaction where
  date : String
  currencyIsoCode : String
  deriving DecidableEq, Repr

/-- JS `a < b` on strings: lexicographic comparison by code unit,
embedded as the linear order on the character list. -/
def strLt (a b : String) : Prop := a.data < b.data

/-- JS `a <= b` on strings (used for ascending `.sort()`). -/
def strLe (a b : String) : Prop := a.data ≤ b.data

instance : DecidableRel strLt := fun a b => inferInstanceAs (Decidable (a.data < b.data))

instance : DecidableRel strLe := fun a b => inferInstanceAs (Decidable (a.data ≤ b.data))

instance : IsTotal String strLe := ⟨fun a b => le_total a.data b.data⟩

instance : IsTrans String strLe := ⟨fun _ _ _ h₁ h₂ => le_trans h₁ h₂⟩

/-- A JS `Map<string, α>` as an association list in insertion order. -/
abbrev JsMap (α : Type) := List (String × α)

/-- `Map.get`: the value stored at the first (and, by the `Map` invariant,
only) entry with the given key. -/
def mapGet {α : Type} (m : JsMap α) (k : String) : Option α :=
  (m.find? (fun p => p.1 == k)).map (fun p => p.2)

/-- `Map.set`: overwrite the entry with the given key in place if present,
otherwise append a new entry (JS `Map` insertion-order semantics). -/
def mapSet {α : Type} (m : JsMap α) (k : String) (v : α) : JsMap α :=
  if m.any (fun p => p.1 == k) then
    m.map (fun p => if p.1 == k then (k, v) else p)
  else
    m ++ [(k, v)]

/-- The list of keys of a JS `Map`, in insertion order (`Map.keys()`). -/
def mapKeys {α : Type} (m : JsMap α) : List String := m.map Prod.fst

/-- `buildExchangeRateMap` (src/lib/currency.ts): build a `Map` of
date → exchange-rate record; later records for the same date overwrite
earlier ones. -/
def buildExchangeRateMap (rates : List ExchangeRateResponse) :
    JsMap ExchangeRateResponse :=
  rates.foldl (fun map rate => mapSet map rate.date rate) []

/-- Split a character list at `'-'` separators (used to parse `YYYY-MM-DD`). -/
def splitDash : List Char → List (List Char)
  | [] => [[]]
  | c :: rest =>
    match splitDash rest with
    | [] => [[]]
    | g :: gs => if c = '-' then [] :: g :: gs else (c :: g) :: gs

/-- Parse a non-empty all-digit character list as a decimal number. -/
def charsToNat? (l : List Char) : Option Nat :=
  if l ≠ [] ∧ l.all (·.isDigit) then
    some (l.foldl (fun acc c => acc * 10 + (c.toNat - 48)) 0)
  else none

/-- Days from 1970-01-01 of a proleptic-Gregorian civil date (the standard
era/day-of-era computation used to model `Date.getTime`). -/
def civilDays (y m d : Nat) : Int :=
  let y' : Nat := if m ≤ 2 then y - 1 else y
  let era : Nat := y' / 400
  let yoe : Nat := y' % 400
  let mp : Nat := (m + 9) % 12
  let doy : Nat := (153 * mp + 2) / 5 + (d - 1)
  let doe : Nat := yoe * 365 + yoe / 4 - yoe / 100 + doy
  (era * 146097 + doe : Int) - 719468

/-- `new Date(s).getTime()` for a well-formed `YYYY-MM-DD` string: UTC
midnight of that calendar day in epoch milliseconds.  A string outside the
documented well-formed domain (NaN in JS) is mapped to `0`. -/
def dateMillis (s : String) : Int :=
  match splitDash s.data with
  | [ys, ms, ds] =>
    match charsToNat? ys, charsToNat? ms, charsToNat? ds with
    | some y, some m, some d => 86400000 * civilDays y m d
    | _, _, _ => 0
  | _ => 0

/-- `Math.abs(new Date(d).getTime() - targetTime)`: absolute elapsed-time
distance of the date key `d` from the target instant `t`. -/
def distMs (t : Int) (d : String) : Int := |dateMillis d - t|

/-- The body of the nearest-date loop in `findNearestExchangeRate`:
a candidate replaces the current best only on a strictly smaller
absolute time difference. -/
def nearestStep (targetTime : Int) (acc : String × Int) (availableDate : String) :
    String × Int :=
  if distMs targetTime availableDate < acc.2 then
    (availableDate, distMs targetTime availableDate)
  else acc

/-- `findNearestExchangeRate` (src/lib/currency.ts): exact-date lookup,
falling back to a linear scan over the lexicographically sorted date keys
for the key at minimal absolute time distance; `null` (here `none`) only
when the map is empty. -/
def findNearestExchangeRate (date : String)
    (ratesMap : JsMap ExchangeRateResponse) : Option ExchangeRateResponse :=
  match mapGet ratesMap date with
  | some exactMatch => some exactMatch
  | none =>
    match List.insertionSort strLe (mapKeys ratesMap) with
    | [] => none
    | d0 :: rest =>
      let targetTime := dateMillis date
      let closest :=
        (d0 :: rest).foldl (nearestStep targetTime) (d0, distMs targetTime d0)
      mapGet ratesMap closest.1

/-- The fixed base currency hard-coded in `convertCurrency`
("Exchange rates are stored as baseCurrency (USD) -> targetCurrency"). -/
def designatedBaseCurrency : String := "USD"

/-- `convertCurrency` (src/lib/currency.ts): identity on equal currencies;
fail-open (return `amount`) when no rate exists; otherwise multiply when
converting from the hard-coded base currency and divide when converting to
it.  The `console.warn`/`console.info` logging has no effect on the result
and is dropped. -/
def convertCurrency (amount : ℚ) (date : String)
    (sourceCurrency targetCurrency : String)
    (ratesMap : JsMap ExchangeRateResponse) : ℚ :=
  if sourceCurrency = targetCurrency then amount
  else
    match findNearestExchangeRate date ratesMap with
    | none => amount
    | some exchangeRateResponse =>
      if sourceCurrency = designatedBaseCurrency then
        amount * exchangeRateResponse.rate
      else
        amount / exchangeRateResponse.rate

/-- Modelled from the spec: `formatLocalDate` (from `src/utils/dates`, a
file whose implementation is not in the repository snapshot; only its
callers and the testing roadmap describe it).  The spec calls it "the date
formatter supplied by the date-utilities collaborator", used "only to
render a calendar date into display text", and the roadmap lists
"`formatLocalDate()` - Format to YYYY-MM-DD"; it is therefore modelled as
rendering the canonical `YYYY-MM-DD` form unchanged. -/
def formatLocalDate (date : String) : String := date

/-- Left-pad a string with `'0'` up to the given length. -/
def padZeros (s : String) (n : Nat) : String :=
  ⟨List.replicate (n - s.data.length) '0' ++ s.data⟩

/-- JS `rate.toFixed(4)`: the rate rendered with exactly four decimal
digits (round half away from zero on the exact rational value). -/
def toFixed4 (q : ℚ) : String :=
  (if q < 0 then "-" else "") ++
    Nat.repr ((Rat.floor (|q| * 10000 + 1 / 2)).toNat / 10000) ++ "." ++
    padZeros (Nat.repr ((Rat.floor (|q| * 10000 + 1 / 2)).toNat % 10000)) 4

/-- `buildExchangeRateAvailabilityText`
(src/features/transactions/utils/messageBuilder.ts): the sentence fragment
naming the fallback rate.  A `null` or empty date string (both falsy in
JS) yields `null`. -/
def buildExchangeRateAvailabilityText (date : Option String) (rate : ℚ)
    (targetCurrency baseCurrency : String) : Option String :=
  match date with
  | none => none
  | some d =>
    if d = "" then none
    else
      some ("the rate of " ++ toFixed4 rate ++ " " ++ targetCurrency ++ "/" ++
        baseCurrency ++ " from " ++ formatLocalDate d)

/-- The message kind: `'success' | 'warning'`. -/
inductive MsgType where
  | success
  | warning
  deriving DecidableEq, Repr

/-- `ImportSuccessMessage`: message kind and final text. -/
structure ImportSuccessMessage where
  type : MsgType
  text : String
  deriving DecidableEq, Repr

/-- The filter-visibility caveat literal appended when filters are active
(src/features/transactions/utils/messageBuilder.ts). -/
def filterCaveat : String :=
  "  Some may be hidden by your current filters, [Clear filters] to see all."

/-- The fixed sentence that introduces the fallback-rate text in the
warning branch. -/
def warningIntro : String :=
  "\nSome transactions are older than our earliest exchange rate. Currency conversions will use "

/-- The base message `Successfully imported ${count} transaction(s)`. -/
def baseMessage (count : Nat) : String :=
  "Successfully imported " ++ Nat.repr count ++ " transaction(s)"

/-- The `filterWarning` local of `buildImportSuccessMessage`: the caveat
when filters are active, the empty string otherwise. -/
def filterWarning (filtersActive : Bool) : String :=
  if filtersActive then filterCaveat else ""

/-- `buildImportSuccessMessage`
(src/features/transactions/utils/messageBuilder.ts): warning when
`hasOldTransactions` holds and a (truthy, i.e. non-null and non-empty)
fallback-rate text is present, plain success otherwise; the filter caveat
is appended in both branches exactly when `filtersActive`. -/
def buildImportSuccessMessage (count : Nat) (hasOldTransactions : Bool)
    (earliestRateText : Option String) (filtersActive : Bool) :
    ImportSuccessMessage :=
  match hasOldTransactions, earliestRateText with
  | true, some ert =>
    if ert = "" then
      ⟨MsgType.success, baseMessage count ++ "." ++ filterWarning filtersActive⟩
    else
      ⟨MsgType.warning,
        baseMessage count ++ "." ++ filterWarning filtersActive ++
          warningIntro ++ ert ++ "."⟩
  | _, _ =>
    ⟨MsgType.success, baseMessage count ++ "." ++ filterWarning filtersActive⟩

/-- The `reduce` in `handleImportSuccess` picking the transaction with the
smallest date (JS string `<`; the first of several equal minima wins). -/
def earliestTransaction (t0 : Transaction) (rest : List Transaction) : Transaction :=
  rest.foldl
    (fun earliest current => if strLt current.date earliest.date then current else earliest)
    t0

/-- The memoized map of `useImportMessageHandler`: currency-pair key
`"TARGET_BASE"` → the record with the earliest date seen for that pair. -/
def earliestRatesByCurrency (rates : List ExchangeRateResponse) :
    JsMap ExchangeRateResponse :=
  rates.foldl
    (fun map rate =>
      let key := rate.targetCurrency ++ "_" ++ rate.baseCurrency
      match mapGet map key with
      | some existing =>
        if strLt rate.date existing.date then mapSet map key rate else map
      | none => mapSet map key rate)
    []

/-- `composeOutcome`: the pure core of `handleImportSuccess`
(src/features/transactions/hooks/useImportMessageHandler.ts, lines
77–128), with the `setImportMessage` state write and the auto-dismiss
timer dropped.  An empty imported-transaction list short-circuits to the
plain success message; otherwise the earliest imported date is compared
against the earliest known rate for the pair `displayCurrency_importCurrency`,
and `hasOldTransactions` / `earliestRateText` feed `buildImportSuccessMessage`
(in the source `earliestRateText` is built exactly when `hasOldTransactions`
is set, expressed here as a single `if`). -/
def composeOutcome (count : Nat) (importedTransactions : List Transaction)
    (exchangeRatesData : List ExchangeRateResponse) (displayCurrency : String)
    (filtersActive : Bool) : ImportSuccessMessage :=
  match importedTransactions with
  | [] => buildImportSuccessMessage count false none filtersActive
  | t0 :: rest =>
    let importCurrency := t0.currencyIsoCode
    let earliestTx := earliestTransaction t0 rest
    let currencyPairKey := displayCurrency ++ "_" ++ importCurrency
    match mapGet (earliestRatesByCurrency exchangeRatesData) currencyPairKey with
    | some earliestRate =>
      if strLt earliestTx.date earliestRate.date then
        buildImportSuccessMessage count true
          (buildExchangeRateAvailabilityText (some earliestRate.date)
            earliestRate.rate earliestRate.targetCurrency earliestRate.baseCurrency)
          filtersActive
      else
        buildImportSuccessMessage count false none filtersActive
    | none => buildImportSuccessMessage count false none filtersActive

/-- `s` contains `t` as a contiguous substring. -/
def containsStr (s t : String) : Prop :=
  ∃ a b : List Char, s.data = a ++ t.data ++ b

/-- Sample records for the spec's worked example (§8): USD/JPY rates. -/
def rateJan : ExchangeRateResponse := ⟨"2020-01-01", "JPY", "USD", 219 / 2⟩

/-- Second record of the spec's worked example. -/
def rateJun : ExchangeRateResponse := ⟨"2020-06-01", "JPY", "USD", 539 / 5⟩

/-- The two-record index of the spec's worked example. -/
def sampleIndex : JsMap ExchangeRateResponse :=
  [("2020-01-01", rateJan), ("2020-06-01", rateJun)]

/-- A two-record index whose dates are both one day away from 2020-01-02
(used to exercise the tie-break behaviour). -/
def tieIndex : JsMap ExchangeRateResponse :=
  [("2020-01-01", ⟨"2020-01-01", "JPY", "USD", 219 / 2⟩),
   ("2020-01-03", ⟨"2020-01-03", "JPY", "USD", 110⟩)]

theorem mapGet_mem {α : Type} {m : JsMap α} {k : String} {v : α}
    (h : mapGet m k = some v) : (k, v) ∈ m := by
  unfold mapGet at h
  cases hf : m.find? (fun p => p.1 == k) with
  | none => rw [hf] at h; simp at h
  | some p =>
    rw [hf] at h
    simp at h
    have hp : (p.1 == k) = true := (List.find?_eq_some.mp hf).1
    have hmem := List.mem_of_find?_eq_some hf
    have hk : p.1 = k := by simpa using hp
    have : p = (k, v) := by
      cases p
      simp_all
    rwa [this] at hmem

theorem mapGet_some_of_mem_keys {α : Type} {m : JsMap α} {k : String}
    (h : k ∈ mapKeys m) : ∃ v, mapGet m k = some v := by
  unfold mapKeys at h
  obtain ⟨p, hp, hk⟩ := List.mem_map.mp h
  have hsome : (m.find? (fun q => q.1 == k)).isSome := by
    rw [List.find?_isSome]
    exact ⟨p, hp, by simp [hk]⟩
  cases hf : m.find? (fun q => q.1 == k) with
  | none => rw [hf] at hsome; simp at hsome
  | some q => exact ⟨q.2, by simp [mapGet, hf]⟩

theorem mem_mapSet {α : Type} {m : JsMap α} {k : String} {v : α} {q : String × α}
    (h : q ∈ mapSet m k v) : q ∈ m ∨ q = (k, v) := by
  unfold mapSet at h
  split at h
  · obtain ⟨p, hp, he⟩ := List.mem_map.mp h
    by_cases hpk : (p.1 == k) = true
    · right; rw [← he]; simp [hpk]
    · left
      rw [← he]
      simpa [hpk] using hp
  · rcases List.mem_append.mp h with h | h
    · left; exact h
    · right; simpa using h

theorem buildExchangeRateMap_wf (rates : List ExchangeRateResponse) :
    ∀ p ∈ buildExchangeRateMap rates, p.1 = p.2.date := by
  unfold buildExchangeRateMap
  suffices h : ∀ (init : JsMap ExchangeRateResponse), (∀ p ∈ init, p.1 = p.2.date) →
      ∀ p ∈ rates.foldl (fun map rate => mapSet map rate.date rate) init,
        p.1 = p.2.date by
    exact h [] (by simp)
  induction rates with
  | nil => intro init h p hp; exact h p hp
  | cons r rs ih =>
    intro init hinit p hp
    rw [List.foldl_cons] at hp
    refine ih (mapSet init r.date r) ?_ p hp
    intro q hq
    rcases mem_mapSet hq with hq | hq
    · exact hinit q hq
    · rw [hq]

theorem nearestFold_spec (t : Int) :
    ∀ (l : List String) (a : String),
      ((l.foldl (nearestStep t) (a, distMs t a)).1 = a ∨
        (l.foldl (nearestStep t) (a, distMs t a)).1 ∈ l) ∧
      (l.foldl (nearestStep t) (a, distMs t a)).2 =
        distMs t (l.foldl (nearestStep t) (a, distMs t a)).1 ∧
      (l.foldl (nearestStep t) (a, distMs t a)).2 ≤ distMs t a ∧
      ∀ d ∈ l, (l.foldl (nearestStep t) (a, distMs t a)).2 ≤ distMs t d := by
  intro l
  induction l with
  | nil => intro a; simp
  | cons c cs ih =>
    intro a
    rw [List.foldl_cons]
    by_cases h : distMs t c < distMs t a
    · rw [show nearestStep t (a, distMs t a) c = (c, distMs t c) by simp [nearestStep, h]]
      obtain ⟨h1, h2, h3, h4⟩ := ih c
      refine ⟨?_, h2, le_trans h3 h.le, ?_⟩
      · rcases h1 with h1 | h1
        · exact Or.inr (by simp [h1])
        · exact Or.inr (by simp [h1])
      · intro d hd
        rcases List.mem_cons.mp hd with rfl | hd
        · exact h3
        · exact h4 d hd
    · rw [show nearestStep t (a, distMs t a) c = (a, distMs t a) by simp [nearestStep, h]]
      obtain ⟨h1, h2, h3, h4⟩ := ih a
      refine ⟨?_, h2, h3, ?_⟩
      · rcases h1 with h1 | h1
        · exact Or.inl h1
        · exact Or.inr (by simp [h1])
      · intro d hd
        rcases List.mem_cons.mp hd with rfl | hd
        · exact le_trans h3 (not_lt.mp h)
        · exact h4 d hd

theorem nearestFold_tie (t : Int) :
    ∀ (l : List String) (a : String), l.Sorted strLe → (∀ d ∈ l, strLe a d) →
      ∀ k, (k = a ∨ k ∈ l) →
        distMs t k = (l.foldl (nearestStep t) (a, distMs t a)).2 →
        strLe (l.foldl (nearestStep t) (a, distMs t a)).1 k := by
  intro l
  induction l with
  | nil =>
    intro a _ _ k hk hdist
    rcases hk with rfl | hk
    · exact le_refl k.data
    · simp at hk
  | cons c cs ih =>
    intro a hsorted hbound k hk hdist
    obtain ⟨hc, hcs⟩ := List.sorted_cons.mp hsorted
    rw [List.foldl_cons] at hdist ⊢
    by_cases h : distMs t c < distMs t a
    · rw [show nearestStep t (a, distMs t a) c = (c, distMs t c) by simp [nearestStep, h]] at hdist ⊢
      obtain ⟨_, _, h3, _⟩ := nearestFold_spec t cs c
      rcases hk with hk1 | hk
      · exfalso
        rw [hk1] at hdist
        rw [← hdist] at h3
        exact absurd (lt_of_le_of_lt h3 h) (lt_irrefl _)
      · rcases List.mem_cons.mp hk with hk1 | hk
        · exact ih c hcs hc k (Or.inl hk1) hdist
        · exact ih c hcs hc k (Or.inr hk) hdist
    · rw [show nearestStep t (a, distMs t a) c = (a, distMs t a) by simp [nearestStep, h]] at hdist ⊢
      obtain ⟨_, _, h3, _⟩ := nearestFold_spec t cs a
      have hbound' : ∀ d ∈ cs, strLe a d := fun d hd => hbound d (by simp [hd])
      rcases hk with hk1 | hk
      · exact ih a hcs hbound' k (Or.inl hk1) hdist
      · rcases List.mem_cons.mp hk with hk1 | hk
        · have hac : distMs t a ≤ distMs t k := by rw [hk1]; exact not_lt.mp h
          have hdista : distMs t a = (cs.foldl (nearestStep t) (a, distMs t a)).2 :=
            le_antisymm (hdist ▸ hac) h3
          have h1 := ih a hcs hbound' a (Or.inl rfl) hdista
          exact le_trans h1 (hbound k (by rw [hk1]; simp))
        · exact ih a hcs hbound' k (Or.inr hk) hdist

theorem findNearest_fallback_spec (date : String) (m : JsMap ExchangeRateResponse)
    (hnone : mapGet m date = none) (hne : m ≠ []) :
    ∃ (k : String) (r : ExchangeRateResponse),
      findNearestExchangeRate date m = some r ∧ mapGet m k = some r ∧ (k, r) ∈ m ∧
      (∀ k' ∈ mapKeys m, distMs (dateMillis date) k ≤ distMs (dateMillis date) k') ∧
      (∀ k' ∈ mapKeys m,
        distMs (dateMillis date) k' = distMs (dateMillis date) k → strLe k k') := by
  cases hs : List.insertionSort strLe (mapKeys m) with
  | nil =>
    exfalso
    have hperm := List.perm_insertionSort strLe (mapKeys m)
    rw [hs] at hperm
    have : mapKeys m = [] := hperm.symm.eq_nil
    exact hne (by simpa [mapKeys] using this)
  | cons d0 rest =>
    have hperm : (d0 :: rest).Perm (mapKeys m) := by
      rw [← hs]; exact List.perm_insertionSort strLe (mapKeys m)
    have hsorted : List.Sorted strLe (d0 :: rest) := by
      rw [← hs]; exact List.sorted_insertionSort strLe (mapKeys m)
    obtain ⟨h1, h2, _, h4⟩ := nearestFold_spec (dateMillis date) (d0 :: rest) d0
    set closest :=
      (d0 :: rest).foldl (nearestStep (dateMillis date)) (d0, distMs (dateMillis date) d0)
      with hclosest
    have hmemsort : closest.1 ∈ d0 :: rest := by
      rcases h1 with h1 | h1
      · rw [h1]; exact List.mem_cons_self _ _
      · exact h1
    have hmemkeys : closest.1 ∈ mapKeys m := hperm.subset hmemsort
    obtain ⟨v, hv⟩ := mapGet_some_of_mem_keys hmemkeys
    refine ⟨closest.1, v, ?_, hv, mapGet_mem hv, ?_, ?_⟩
    · show findNearestExchangeRate date m = some v
      unfold findNearestExchangeRate
      rw [hnone, hs]
      show mapGet m closest.1 = some v
      exact hv
    · intro k' hk'
      have : k' ∈ d0 :: rest := hperm.mem_iff.mpr hk'
      have := h4 k' this
      rw [h2] at this
      exact this
    · intro k' hk' hd
      have hmem' : k' ∈ d0 :: rest := hperm.mem_iff.mpr hk'
      have hbound : ∀ d ∈ d0 :: rest, strLe d0 d := by
        intro d hd'
        rcases List.mem_cons.mp hd' with h | h
        · rw [h]; exact le_refl _
        · exact (List.sorted_cons.mp hsorted).1 d h
      refine nearestFold_tie (dateMillis date) (d0 :: rest) d0 hsorted hbound k'
        (Or.inr hmem') ?_
      show distMs (dateMillis date) k' = closest.2
      rw [h2]
      exact hd

/-- C1: for every rate index whose entries are keyed by their record's own
date and every target date, the record returned by `findNearestExchangeRate`
is at an absolute elapsed-time distance from the target date that is less
than or equal to the distance of every other record in the index. -/
theorem findNearestExchangeRate_nearest (date : String) (m : JsMap ExchangeRateResponse)
    (hwf : ∀ p ∈ m, p.1 = p.2.date) (hne : m ≠ []) :
    ∃ r, findNearestExchangeRate date m = some r ∧
      ∀ p ∈ m, distMs (dateMillis date) r.date ≤ distMs (dateMillis date) p.2.date := by
  cases hx : mapGet m date with
  | some r0 =>
    have hmem := mapGet_mem hx
    have hdate : date = r0.date := hwf _ hmem
    refine ⟨r0, by unfold findNearestExchangeRate; rw [hx], ?_⟩
    intro p hp
    have hzero : distMs (dateMillis date) r0.date = 0 := by
      rw [← hdate]; unfold distMs; simp
    rw [hzero]
    exact abs_nonneg _
  | none =>
    obtain ⟨k, r, hfind, _, hmem, hmin, _⟩ := findNearest_fallback_spec date m hx hne
    have hk : k = r.date := hwf _ hmem
    refine ⟨r, hfind, ?_⟩
    intro p hp
    have hkeys : p.1 ∈ mapKeys m := List.mem_map.mpr ⟨p, hp, rfl⟩
    have := hmin p.1 hkeys
    rw [hk, hwf p hp] at this
    exact this

/-- Closed witness for C1: the spec's worked example, query date
2020-03-15 against rates on 2020-01-01 and 2020-06-01. -/
theorem findNearestExchangeRate_nearest_witness :
    ∃ r, findNearestExchangeRate "2020-03-15" sampleIndex = some r ∧
      ∀ p ∈ sampleIndex,
        distMs (dateMillis "2020-03-15") r.date ≤ distMs (dateMillis "2020-03-15") p.2.date :=
  findNearestExchangeRate_nearest "2020-03-15" sampleIndex (by decide) (by decide)

/-- C2: if the index has a record stored under the queried date, the
lookup returns exactly that record (exact-match precedence). -/
theorem findNearestExchangeRate_exact (date : String) (m : JsMap ExchangeRateResponse)
    (r : ExchangeRateResponse) (h : mapGet m date = some r) :
    findNearestExchangeRate date m = some r := by
  unfold findNearestExchangeRate
  rw [h]

/-- Closed witness for C2: querying 2020-06-01 in the worked example
returns the 2020-06-01 record itself. -/
theorem findNearestExchangeRate_exact_witness :
    findNearestExchangeRate "2020-06-01" sampleIndex = some rateJun :=
  findNearestExchangeRate_exact "2020-06-01" sampleIndex rateJun (by rfl)

/-- C3: the lookup (a total function in this embedding, so it cannot
throw) returns not-found exactly when the index has zero entries. -/
theorem findNearestExchangeRate_none_iff (date : String)
    (m : JsMap ExchangeRateResponse) :
    findNearestExchangeRate date m = none ↔ m = [] := by
  constructor
  · intro h
    by_contra hne
    cases hx : mapGet m date with
    | some r =>
      unfold findNearestExchangeRate at h
      rw [hx] at h
      cases h
    | none =>
      obtain ⟨k, r, hfind, _⟩ := findNearest_fallback_spec date m hx hne
      rw [hfind] at h
      cases h
  · intro h
    rw [h]
    rfl

/-- C10: when the queried date has no exact match, the returned record's
date is at minimal distance among all keys and is lexicographically least
among the keys achieving that minimal distance (first-in-sorted-order
tie-break). -/
theorem findNearestExchangeRate_tiebreak (date : String) (m : JsMap ExchangeRateResponse)
    (hwf : ∀ p ∈ m, p.1 = p.2.date) (hne : m ≠ [])
    (hnoexact : mapGet m date = none) :
    ∃ r, findNearestExchangeRate date m = some r ∧
      (∀ p ∈ m, distMs (dateMillis date) r.date ≤ distMs (dateMillis date) p.1) ∧
      (∀ p ∈ m, distMs (dateMillis date) p.1 = distMs (dateMillis date) r.date →
        strLe r.date p.1) := by
  obtain ⟨k, r, hfind, _, hmem, hmin, htie⟩ :=
    findNearest_fallback_spec date m hnoexact hne
  have hk : k = r.date := hwf _ hmem
  refine ⟨r, hfind, ?_, ?_⟩
  · intro p hp
    have hkeys : p.1 ∈ mapKeys m := List.mem_map.mpr ⟨p, hp, rfl⟩
    have := hmin p.1 hkeys
    rw [hk] at this
    exact this
  · intro p hp hd
    have hkeys : p.1 ∈ mapKeys m := List.mem_map.mpr ⟨p, hp, rfl⟩
    have := htie p.1 hkeys (by rw [← hk] at hd; exact hd)
    rw [hk] at this
    exact this

/-- Closed witness for C10: 2020-01-02 is exactly one day from both
2020-01-01 and 2020-01-03; the returned record carries the
lexicographically earlier date. -/
theorem findNearestExchangeRate_tiebreak_witness :
    ∃ r, findNearestExchangeRate "2020-01-02" tieIndex = some r ∧
      (∀ p ∈ tieIndex,
        distMs (dateMillis "2020-01-02") r.date ≤ distMs (dateMillis "2020-01-02") p.1) ∧
      (∀ p ∈ tieIndex,
        distMs (dateMillis "2020-01-02") p.1 = distMs (dateMillis "2020-01-02") r.date →
          strLe r.date p.1) :=
  findNearestExchangeRate_tiebreak "2020-01-02" tieIndex (by decide) (by decide) (by rfl)

/-- C4: same-currency conversion is the identity for every amount, date,
currency and index (the same-currency test precedes any rate lookup in
`convertCurrency`, so no lookup is performed). -/
theorem convertCurrency_same_currency (amount : ℚ) (date : String) (c : String)
    (m : JsMap ExchangeRateResponse) :
    convertCurrency amount date c c m = amount := by
  unfold convertCurrency
  simp

/-- C5: with distinct currencies and no rate found, `convertCurrency`
returns the amount unchanged (fail-open; the condition is only logged in
the source, and this embedding is a total function, so nothing throws). -/
theorem convertCurrency_no_rate (amount : ℚ) (date : String)
    (s t : String) (m : JsMap ExchangeRateResponse) (hst : s ≠ t)
    (hnone : findNearestExchangeRate date m = none) :
    convertCurrency amount date s t m = amount := by
  unfold convertCurrency
  rw [if_neg hst, hnone]

/-- Closed witness for C5: converting THB to USD over the empty index. -/
theorem convertCurrency_no_rate_witness :
    convertCurrency 5 "2020-03-15" "THB" "USD" [] = 5 :=
  convertCurrency_no_rate 5 "2020-03-15" "THB" "USD" [] (by decide) (by rfl)

/-- C6: with distinct currencies and a rate record found, the result is
`amount * rate` when the source currency is the hard-coded base currency
of the rate table and `amount / rate` otherwise. -/
theorem convertCurrency_direction (amount : ℚ) (date : String)
    (s t : String) (m : JsMap ExchangeRateResponse) (r : ExchangeRateResponse)
    (hst : s ≠ t) (hfound : findNearestExchangeRate date m = some r) :
    convertCurrency amount date s t m =
      if s = designatedBaseCurrency then amount * r.rate else amount / r.rate := by
  unfold convertCurrency
  rw [if_neg hst, hfound]

/-- Closed witness for C6: THB → USD over the worked example uses the
division direction (THB is not the hard-coded base currency USD). -/
theorem convertCurrency_direction_witness :
    convertCurrency 5 "2020-03-15" "THB" "USD" sampleIndex =
      if "THB" = designatedBaseCurrency then 5 * rateJan.rate
      else 5 / rateJan.rate :=
  convertCurrency_direction 5 "2020-03-15" "THB" "USD" sampleIndex rateJan
    (by decide) (by rfl)

theorem containsStr_self (s : String) : containsStr s s :=
  ⟨[], [], by simp⟩

theorem containsStr_append_left (s₁ s₂ t : String) (h : containsStr s₂ t) :
    containsStr (s₁ ++ s₂) t := by
  obtain ⟨a, b, hab⟩ := h
  exact ⟨s₁.data ++ a, b, by simp [String.data_append, hab]⟩

theorem containsStr_append_right (s₁ s₂ t : String) (h : containsStr s₁ t) :
    containsStr (s₁ ++ s₂) t := by
  obtain ⟨a, b, hab⟩ := h
  exact ⟨a, b ++ s₂.data, by simp [String.data_append, hab]⟩

theorem mem_of_containsStr {s t : String} (h : containsStr s t) :
    ∀ c ∈ t.data, c ∈ s.data := by
  obtain ⟨a, b, hab⟩ := h
  intro c hc
  rw [hab]
  simp [hc]

theorem digitChar_isDigit : ∀ m : Nat, m < 10 → (Nat.digitChar m).isDigit = true := by
  decide

theorem toDigitsCore_isDigit :
    ∀ (fuel n : Nat) (ds : List Char), (∀ c ∈ ds, c.isDigit = true) →
      ∀ c ∈ Nat.toDigitsCore 10 fuel n ds, c.isDigit = true := by
  intro fuel
  induction fuel with
  | zero => intro n ds h c hc; exact h c hc
  | succ fuel ih =>
    intro n ds h c hc
    simp only [Nat.toDigitsCore] at hc
    by_cases hz : n / 10 = 0
    · rw [if_pos hz] at hc
      rcases List.mem_cons.mp hc with hc1 | hc
      · rw [hc1]; exact digitChar_isDigit _ (Nat.mod_lt _ (by norm_num))
      · exact h c hc
    · rw [if_neg hz] at hc
      refine ih (n / 10) (Nat.digitChar (n % 10) :: ds) ?_ c hc
      intro c' hc'
      rcases List.mem_cons.mp hc' with hc1 | hc'
      · rw [hc1]; exact digitChar_isDigit _ (Nat.mod_lt _ (by norm_num))
      · exact h c' hc'

theorem repr_isDigit (n : Nat) : ∀ c ∈ (Nat.repr n).data, c.isDigit = true := by
  intro c hc
  exact toDigitsCore_isDigit (n + 1) n [] (by simp) c hc

theorem noBracket_repr (n : Nat) : '[' ∉ (Nat.repr n).data := by
  intro h
  exact absurd (repr_isDigit n _ h) (by decide)

theorem noBracket_append {s t : String} (hs : '[' ∉ s.data) (ht : '[' ∉ t.data) :
    '[' ∉ (s ++ t).data := by
  rw [String.data_append]
  simp [hs, ht]

theorem noBracket_padZeros {s : String} (hs : '[' ∉ s.data) (n : Nat) :
    '[' ∉ (padZeros s n).data := by
  unfold padZeros
  intro h
  rcases List.mem_append.mp h with h | h
  · exact absurd (List.eq_of_mem_replicate h) (by decide)
  · exact hs h

theorem noBracket_toFixed4 (q : ℚ) : '[' ∉ (toFixed4 q).data := by
  unfold toFixed4
  refine noBracket_append (noBracket_append (noBracket_append ?_ ?_) ?_) ?_
  · by_cases hq : q < 0
    · rw [if_pos hq]; decide
    · rw [if_neg hq]; decide
  · exact noBracket_repr _
  · decide
  · exact noBracket_padZeros (noBracket_repr _) 4

theorem noBracket_baseMessage (count : Nat) : '[' ∉ (baseMessage count).data := by
  unfold baseMessage
  exact noBracket_append (noBracket_append (by decide) (noBracket_repr count)) (by decide)

theorem build_msg_false (count : Nat) (ert : Option String) (f : Bool) :
    buildImportSuccessMessage count false ert f =
      ⟨MsgType.success, baseMessage count ++ "." ++ filterWarning f⟩ := by
  cases ert <;> rfl

theorem build_msg_none (count : Nat) (hasOld : Bool) (f : Bool) :
    buildImportSuccessMessage count hasOld none f =
      ⟨MsgType.success, baseMessage count ++ "." ++ filterWarning f⟩ := by
  cases hasOld <;> rfl

theorem build_msg_warn (count : Nat) (s : String) (hs : s ≠ "") (f : Bool) :
    buildImportSuccessMessage count true (some s) f =
      ⟨MsgType.warning,
        baseMessage count ++ "." ++ filterWarning f ++ warningIntro ++ s ++ "."⟩ := by
  show (if s = "" then
      (⟨MsgType.success, baseMessage count ++ "." ++ filterWarning f⟩ : ImportSuccessMessage)
    else
      ⟨MsgType.warning,
        baseMessage count ++ "." ++ filterWarning f ++ warningIntro ++ s ++ "."⟩) =
    ⟨MsgType.warning,
      baseMessage count ++ "." ++ filterWarning f ++ warningIntro ++ s ++ "."⟩
  rw [if_neg hs]

theorem build_caveat_iff (count : Nat) (hasOld : Bool) (ert : Option String)
    (f : Bool) (hert : ∀ s, ert = some s → '[' ∉ s.data) :
    (containsStr (buildImportSuccessMessage count hasOld ert f).text filterCaveat ↔
      f = true) := by
  have hbr : '[' ∈ filterCaveat.data := by decide
  have hsucc : containsStr (baseMessage count ++ "." ++ filterWarning true) filterCaveat := by
    show containsStr ((baseMessage count ++ ".") ++ filterWarning true) filterCaveat
    exact containsStr_append_left _ _ _ (containsStr_self filterCaveat)
  have hnb_sw : '[' ∉ (baseMessage count ++ "." ++ filterWarning false).data := by
    refine noBracket_append (noBracket_append (noBracket_baseMessage count) ?_) ?_ <;> decide
  constructor
  · intro h
    by_contra hf
    have hf' : f = false := by
      cases f
      · rfl
      · exact absurd rfl hf
    rw [hf'] at h
    have hmem := mem_of_containsStr h '[' hbr
    cases hasOld with
    | false =>
      rw [build_msg_false] at hmem
      exact hnb_sw hmem
    | true =>
      cases ert with
      | none =>
        rw [build_msg_none] at hmem
        exact hnb_sw hmem
      | some s =>
        by_cases hs : s = ""
        · rw [hs] at hmem
          simp only [buildImportSuccessMessage, if_pos rfl] at hmem
          exact hnb_sw hmem
        · rw [build_msg_warn count s hs] at hmem
          have hnb : '[' ∉ (baseMessage count ++ "." ++ filterWarning false ++
              warningIntro ++ s ++ ".").data := by
            refine noBracket_append (noBracket_append (noBracket_append hnb_sw ?_)
              (hert s rfl)) ?_ <;> decide
          exact hnb hmem
  · intro hf
    rw [hf]
    cases hasOld with
    | false =>
      rw [build_msg_false]
      exact hsucc
    | true =>
      cases ert with
      | none =>
        rw [build_msg_none]
        exact hsucc
      | some s =>
        by_cases hs : s = ""
        · rw [hs]
          simp only [buildImportSuccessMessage, if_pos rfl]
          exact hsucc
        · rw [build_msg_warn count s hs]
          show containsStr
            (((baseMessage count ++ "." ++ filterWarning true) ++ warningIntro) ++ s ++ ".")
            filterCaveat
          refine containsStr_append_right _ _ _ ?_
          refine containsStr_append_right _ _ _ ?_
          exact containsStr_append_right _ _ _ hsucc

theorem availabilityText_ne_empty (r : ℚ) (tc bc fd : String) :
    ("the rate of " ++ toFixed4 r ++ " " ++ tc ++ "/" ++ bc ++ " from " ++ fd) ≠ "" := by
  intro h
  have hd : ("the rate of " ++ toFixed4 r ++ " " ++ tc ++ "/" ++ bc ++ " from " ++
      fd).data = [] := by
    rw [h]
  simp [String.data_append] at hd

theorem build_with_availability (count : Nat) (f : Bool) (r : ℚ) (tc bc d : String)
    (hd : d ≠ "") :
    buildImportSuccessMessage count true
        (buildExchangeRateAvailabilityText (some d) r tc bc) f =
      ⟨MsgType.warning,
        baseMessage count ++ "." ++ filterWarning f ++ warningIntro ++
          ("the rate of " ++ toFixed4 r ++ " " ++ tc ++ "/" ++ bc ++ " from " ++
            formatLocalDate d) ++ "."⟩ := by
  show buildImportSuccessMessage count true
    (if d = "" then none
      else some ("the rate of " ++ toFixed4 r ++ " " ++ tc ++ "/" ++ bc ++ " from " ++
        formatLocalDate d)) f = _
  rw [if_neg hd]
  exact build_msg_warn count _ (availabilityText_ne_empty r tc bc (formatLocalDate d)) f

theorem composeOutcome_nil (count : Nat) (rates : List ExchangeRateResponse)
    (disp : String) (f : Bool) :
    composeOutcome count [] rates disp f = buildImportSuccessMessage count false none f :=
  rfl

theorem composeOutcome_cons (count : Nat) (t0 : Transaction) (rest : List Transaction)
    (rates : List ExchangeRateResponse) (disp : String) (f : Bool) :
    composeOutcome count (t0 :: rest) rates disp f =
      match mapGet (earliestRatesByCurrency rates) (disp ++ "_" ++ t0.currencyIsoCode) with
      | some er =>
        if strLt (earliestTransaction t0 rest).date er.date then
          buildImportSuccessMessage count true
            (buildExchangeRateAvailabilityText (some er.date) er.rate
              er.targetCurrency er.baseCurrency) f
        else buildImportSuccessMessage count false none f
      | none => buildImportSuccessMessage count false none f := rfl

theorem composeOutcome_found_old (count : Nat) (t0 : Transaction)
    (rest : List Transaction) (rates : List ExchangeRateResponse) (disp : String)
    (f : Bool) (er : ExchangeRateResponse)
    (hg : mapGet (earliestRatesByCurrency rates) (disp ++ "_" ++ t0.currencyIsoCode) =
      some er)
    (hlt : strLt (earliestTransaction t0 rest).date er.date) :
    composeOutcome count (t0 :: rest) rates disp f =
      buildImportSuccessMessage count true
        (buildExchangeRateAvailabilityText (some er.date) er.rate
          er.targetCurrency er.baseCurrency) f := by
  rw [composeOutcome_cons, hg]
  show (if strLt (earliestTransaction t0 rest).date er.date then
      buildImportSuccessMessage count true
        (buildExchangeRateAvailabilityText (some er.date) er.rate
          er.targetCurrency er.baseCurrency) f
    else buildImportSuccessMessage count false none f) = _
  rw [if_pos hlt]

theorem composeOutcome_found_new (count : Nat) (t0 : Transaction)
    (rest : List Transaction) (rates : List ExchangeRateResponse) (disp : String)
    (f : Bool) (er : ExchangeRateResponse)
    (hg : mapGet (earliestRatesByCurrency rates) (disp ++ "_" ++ t0.currencyIsoCode) =
      some er)
    (hnlt : ¬ strLt (earliestTransaction t0 rest).date er.date) :
    composeOutcome count (t0 :: rest) rates disp f =
      buildImportSuccessMessage count false none f := by
  rw [composeOutcome_cons, hg]
  show (if strLt (earliestTransaction t0 rest).date er.date then
      buildImportSuccessMessage count true
        (buildExchangeRateAvailabilityText (some er.date) er.rate
          er.targetCurrency er.baseCurrency) f
    else buildImportSuccessMessage count false none f) = _
  rw [if_neg hnlt]

theorem composeOutcome_notfound (count : Nat) (t0 : Transaction)
    (rest : List Transaction) (rates : List ExchangeRateResponse) (disp : String)
    (f : Bool)
    (hg : mapGet (earliestRatesByCurrency rates) (disp ++ "_" ++ t0.currencyIsoCode) =
      none) :
    composeOutcome count (t0 :: rest) rates disp f =
      buildImportSuccessMessage count false none f := by
  rw [composeOutcome_cons, hg]

/-- C7 (amended): the composer returns a success-kind outcome whenever the
imported-record list is empty (in particular for `importedCount = 0` with
no imported records), regardless of the other inputs. -/
theorem composeOutcome_empty_list_success (count : Nat)
    (rates : List ExchangeRateResponse) (disp : String) (f : Bool) :
    (composeOutcome count [] rates disp f).type = MsgType.success := by
  rw [composeOutcome_nil, build_msg_false]

/-- C7 counterexample: with `importedCount = 0` but a non-empty imported
batch whose date precedes the earliest known rate, the composer returns a
warning, not a success, so a zero count alone does not force success. -/
theorem composeOutcome_zero_count_not_success :
    (composeOutcome 0 [⟨"2019-01-01", "JPY"⟩] [rateJan] "USD" false).type ≠
      MsgType.success := by
  have hg : mapGet (earliestRatesByCurrency [rateJan])
      ("USD" ++ "_" ++ Transaction.currencyIsoCode ⟨"2019-01-01", "JPY"⟩) =
      some rateJan := by rfl
  have hlt : strLt (earliestTransaction ⟨"2019-01-01", "JPY"⟩ []).date rateJan.date := by
    decide
  rw [composeOutcome_found_old 0 ⟨"2019-01-01", "JPY"⟩ [] [rateJan] "USD" false
      rateJan hg hlt,
    build_with_availability 0 false rateJan.rate rateJan.targetCurrency
      rateJan.baseCurrency rateJan.date (by decide)]
  exact fun h => nomatch h

/-- C8: for a non-empty imported batch, the composer returns a warning
whose text names the fallback rate's formatted date and its 4-decimal
rate figure exactly when an earliest rate exists for the batch's currency
pair and the minimum imported date is strictly before it; otherwise (rate
found but not older, or no rate data for the pair) it returns success. -/
theorem composeOutcome_warning_cases (count : Nat) (t0 : Transaction)
    (rest : List Transaction) (rates : List ExchangeRateResponse) (disp : String)
    (f : Bool) :
    (∀ er, mapGet (earliestRatesByCurrency rates) (disp ++ "_" ++ t0.currencyIsoCode) =
        some er →
      strLt (earliestTransaction t0 rest).date er.date →
      (composeOutcome count (t0 :: rest) rates disp f).type = MsgType.warning ∧
      containsStr (composeOutcome count (t0 :: rest) rates disp f).text
        (formatLocalDate er.date) ∧
      containsStr (composeOutcome count (t0 :: rest) rates disp f).text
        (toFixed4 er.rate)) ∧
    (∀ er, mapGet (earliestRatesByCurrency rates) (disp ++ "_" ++ t0.currencyIsoCode) =
        some er →
      ¬ strLt (earliestTransaction t0 rest).date er.date →
      (composeOutcome count (t0 :: rest) rates disp f).type = MsgType.success) ∧
    (mapGet (earliestRatesByCurrency rates) (disp ++ "_" ++ t0.currencyIsoCode) = none →
      (composeOutcome count (t0 :: rest) rates disp f).type = MsgType.success) := by
  refine ⟨?_, ?_, ?_⟩
  · intro er hg hlt
    have hne : er.date ≠ "" := by
      intro he
      rw [he] at hlt
      exact List.Lex.not_nil_right _ _ hlt
    rw [composeOutcome_found_old count t0 rest rates disp f er hg hlt,
      build_with_availability count f er.rate er.targetCurrency er.baseCurrency
        er.date hne]
    refine ⟨rfl, ?_, ?_⟩
    · exact containsStr_append_right _ _ _ (containsStr_append_left _ _ _
        (containsStr_append_left _ _ _ (containsStr_self _)))
    · exact containsStr_append_right _ _ _ (containsStr_append_left _ _ _
        (containsStr_append_right _ _ _ (containsStr_append_right _ _ _
          (containsStr_append_right _ _ _ (containsStr_append_right _ _ _
            (containsStr_append_right _ _ _ (containsStr_append_right _ _ _
              (containsStr_append_left _ _ _ (containsStr_self _)))))))))
  · intro er hg hnlt
    rw [composeOutcome_found_new count t0 rest rates disp f er hg hnlt, build_msg_false]
  · intro hg
    rw [composeOutcome_notfound count t0 rest rates disp f hg, build_msg_false]

/-- First transaction of the spec's §8 import example. -/
def oldImportT0 : Transaction := ⟨"2019-05-01", "JPY"⟩

/-- Remaining transactions of the spec's §8 import example. -/
def oldImportRest : List Transaction := [⟨"2019-06-01", "JPY"⟩, ⟨"2019-07-01", "JPY"⟩]

/-- Closed witness for C8: the spec's import example (three JPY
transactions from 2019, earliest JPY rate 2020-01-01) yields a warning
naming the fallback rate's date and 4-decimal figure. -/
theorem composeOutcome_warning_cases_witness :
    (composeOutcome 3 (oldImportT0 :: oldImportRest) [rateJan] "USD" false).type =
      MsgType.warning ∧
    containsStr (composeOutcome 3 (oldImportT0 :: oldImportRest) [rateJan] "USD"
      false).text (formatLocalDate rateJan.date) ∧
    containsStr (composeOutcome 3 (oldImportT0 :: oldImportRest) [rateJan] "USD"
      false).text (toFixed4 rateJan.rate) :=
  (composeOutcome_warning_cases 3 oldImportT0 oldImportRest [rateJan] "USD" false).1
    rateJan (by rfl) (by decide)

/-- C9: the outcome's text contains the filter-visibility caveat exactly
when `filtersActive` is true, in both the success and the warning branch
(for rate data whose text fields do not themselves contain the caveat's
`'['` marker, as three-letter currency codes and `YYYY-MM-DD` dates never
do). -/
theorem composeOutcome_filter_caveat_iff (count : Nat) (txs : List Transaction)
    (rates : List ExchangeRateResponse) (disp : String) (f : Bool)
    (hclean : ∀ p ∈ earliestRatesByCurrency rates,
      '[' ∉ p.2.date.data ∧ '[' ∉ p.2.baseCurrency.data ∧
        '[' ∉ p.2.targetCurrency.data) :
    (containsStr (composeOutcome count txs rates disp f).text filterCaveat ↔
      f = true) := by
  cases txs with
  | nil =>
    rw [composeOutcome_nil]
    exact build_caveat_iff count false none f (by simp)
  | cons t0 rest =>
    cases hg : mapGet (earliestRatesByCurrency rates)
        (disp ++ "_" ++ t0.currencyIsoCode) with
    | none =>
      rw [composeOutcome_notfound count t0 rest rates disp f hg]
      exact build_caveat_iff count false none f (by simp)
    | some er =>
      by_cases hlt : strLt (earliestTransaction t0 rest).date er.date
      · rw [composeOutcome_found_old count t0 rest rates disp f er hg hlt]
        refine build_caveat_iff count true _ f ?_
        intro s hs
        obtain ⟨hd, hb, ht⟩ := hclean _ (mapGet_mem hg)
        have hne : er.date ≠ "" := by
          intro he
          rw [he] at hlt
          exact List.Lex.not_nil_right _ _ hlt
        rw [show buildExchangeRateAvailabilityText (some er.date) er.rate
            er.targetCurrency er.baseCurrency =
            (if er.date = "" then none
              else some ("the rate of " ++ toFixed4 er.rate ++ " " ++
                er.targetCurrency ++ "/" ++ er.baseCurrency ++ " from " ++
                formatLocalDate er.date)) from rfl, if_neg hne] at hs
        injection hs with hs
        rw [← hs]
        refine noBracket_append (noBracket_append (noBracket_append (noBracket_append
          (noBracket_append (noBracket_append (noBracket_append (by decide)
            (noBracket_toFixed4 er.rate)) (by decide)) ht) (by decide)) hb)
          (by decide)) ?_
        show '[' ∉ er.date.data
        exact hd
      · rw [composeOutcome_found_new count t0 rest rates disp f er hg hlt]
        exact build_caveat_iff count false none f (by simp)

/-- Closed witness for C9: with filters active and an empty batch the
success text contains the caveat. -/
theorem composeOutcome_filter_caveat_iff_witness :
    containsStr (composeOutcome 1 [] [] "USD" true).text filterCaveat :=
  (composeOutcome_filter_caveat_iff 1 [] [] "USD" true
    (by intro p hp; simp [earliestRatesByCurrency] at hp)).mpr rfl
